import Mathlib

set_option maxHeartbeats 1000000

/-!
Verification development for the BirdApp service (src/main.py, src/service.py).

The embedding models the JSON values exchanged with the remote backends, the
retry/backoff inference client (`call_hf_inference` in src/main.py and
`call_hf` in src/service.py), the two `/predict` request handlers, and the
Rekognition-based bird verification path (`_verify_with_rekognition` and the
`/VerifyBirdImage` handler in src/main.py).  Raised Python exceptions are made
explicit through an `Except` result, and the observable effects of a request
(outbound HTTP calls and `time.sleep`) are collected in a trace.
-/

/-- JSON-like values exchanged with the remote services.  Numbers are
modelled as rationals (ints and floats as produced by CPython json parsing). -/
inductive JVal where
  | null
  | bool (b : Bool)
  | num (q : ℚ)
  | str (s : String)
  | arr (xs : List JVal)
  | obj (kvs : List (String × JVal))

/-- Numeric value of a decimal digit character, if it is one. -/
def digitVal (c : Char) : Option ℕ :=
  if c.isDigit then some (c.toNat - 48) else none

/-- Value of a nonempty all-digit character list. -/
def digitsVal (cs : List Char) : Option ℕ :=
  if cs.isEmpty then none
  else cs.foldlM (fun acc c => (digitVal c).map (fun d => acc * 10 + d)) 0

/-- Mantissa `digits[.digits]` of a decimal literal (at least one digit on
one side of the dot, as CPython accepts). -/
def parseMantissa (s : String) : Option ℚ :=
  match s.splitOn "." with
  | [ip] => (digitsVal ip.toList).map (fun n => (n : ℚ))
  | [ip, fp] =>
      if ip.isEmpty && fp.isEmpty then none
      else
        match (if ip.isEmpty then some 0 else digitsVal ip.toList),
              (if fp.isEmpty then some 0 else digitsVal fp.toList) with
        | some n, some f => some ((n : ℚ) + (f : ℚ) / (10 : ℚ) ^ fp.length)
        | _, _ => none
  | _ => none

/-- An optionally signed decimal exponent. -/
def parseSignedNat (s : String) : Option (Bool × ℕ) :=
  if s.startsWith "-" then (digitsVal (s.drop 1).toList).map (fun n => (true, n))
  else if s.startsWith "+" then (digitsVal (s.drop 1).toList).map (fun n => (false, n))
  else (digitsVal s.toList).map (fun n => (false, n))

/-- Apply a decimal exponent to a mantissa. -/
def applyExp (m : ℚ) (e : Bool × ℕ) : ℚ :=
  if e.1 then m / (10 : ℚ) ^ e.2 else m * (10 : ℚ) ^ e.2

/-- Unsigned part of a decimal literal, with optional `e`/`E` exponent. -/
def parseAbs (s : String) : Option ℚ :=
  match s.splitOn "e" with
  | [_] =>
      (match s.splitOn "E" with
       | [_] => parseMantissa s
       | [m2, e2] =>
           match parseMantissa m2, parseSignedNat e2 with
           | some mv, some ev => some (applyExp mv ev)
           | _, _ => none
       | _ => none)
  | [m, e] =>
      match parseMantissa m, parseSignedNat e with
      | some mv, some ev => some (applyExp mv ev)
      | _, _ => none
  | _ => none

/-- CPython `float(s)` on a string: optional sign and decimal literal with
optional exponent.  The forms `inf`/`nan`, hex floats and underscore digit
separators have no rational counterpart in this embedding and are mapped to
a conversion failure. -/
def parsePyFloat (s : String) : Option ℚ :=
  let t := s.trim
  if t.startsWith "-" then (parseAbs (t.drop 1)).map Neg.neg
  else if t.startsWith "+" then parseAbs (t.drop 1)
  else parseAbs t

/-- CPython `float(x)` on a JSON value: numbers and booleans convert,
strings are parsed as decimal literals, every other type raises
(`TypeError`/`ValueError`, modelled as `.error`). -/
def pyFloat : JVal → Except Unit ℚ
  | .num q => .ok q
  | .bool b => .ok (if b then 1 else 0)
  | .str s =>
      match parsePyFloat s with
      | some q => .ok q
      | none => .error ()
  | _ => .error ()

/-- Python `x.get(k)` on a JSON object (first binding wins; the handlers only
build objects with distinct keys). -/
def JVal.get? : JVal → String → Option JVal
  | .obj kvs, k => List.lookup k kvs
  | _, _ => none

/-- Python `dict.setdefault k v` on an association list: insertion order is
kept and a new key is appended at the end. -/
def setdefault (kvs : List (String × JVal)) (k : String) (v : JVal) :
    List (String × JVal) :=
  if (List.lookup k kvs).isSome then kvs else kvs ++ [(k, v)]

/-- One possible outcome of a `requests.post` to the classification backend:
an HTTP response carrying the status, the result of `r.json()` when the body
parses (`none` when it does not), and the raw `r.text`; or a raised
`requests.exceptions.RequestException`.  An unparseable body of a 2xx
response makes `r.json()` raise `requests.exceptions.JSONDecodeError`, which
is itself a `RequestException`. -/
inductive HFResp where
  | http (status : ℕ) (body : Option JVal) (text : String)
  | exn (msg : String)

/-- Observable effects of handling one request: an HTTP call to the
classification backend, a `time.sleep` (duration in seconds), or a call to
the Rekognition label-detection backend. -/
inductive Ev where
  | hfCall
  | sleep (d : ℕ)
  | rekCall
  deriving DecidableEq, Repr

/-- A Python exception escaping a function.  The embedding makes raising
explicit; `attributeError` stands for the `AttributeError` raised by
`body.setdefault` when `body` is not a dict (its CPython message names the
offending type). -/
inductive PyExc where
  | attributeError
  deriving DecidableEq, Repr

/-- The backoff update `delay = min(delay * 2, 16)` of both clients. -/
def nextDelay (d : ℕ) : ℕ := min (d * 2) 16

/-- Message of the `JSONDecodeError` raised by `r.json()` on an unparseable
2xx body; its exact text does not influence control flow. -/
def jsonDecodeMsg : String := "Expecting value: line 1 column 1 (char 0)"

/-- The `detail` field value built from the loop variable `last_err`. -/
def detailOf : Option String → JVal
  | none => .null
  | some s => .str s

/-- Body returned by both clients when all attempts are exhausted
(src/main.py line 145, src/service.py line 65). -/
def exhaustBody (last_err : Option String) : JVal :=
  .obj [("error", .str "HuggingFace request exception or timeout"),
        ("detail", detailOf last_err)]

/-- The two `setdefault` calls that both clients apply to a non-2xx body
(src/main.py lines 133-134, src/service.py lines 53-54). -/
def enrich (kvs : List (String × JVal)) (status : ℕ) : List (String × JVal) :=
  setdefault (setdefault kvs "error" (.str "HuggingFace request failed"))
    "status_code" (.num (status : ℚ))

/-- Retry loop shared by `call_hf_inference` (src/main.py lines 113-145) and
`call_hf` (src/service.py lines 34-65), whose bodies are equivalent line by
line.  `rem` counts the remaining attempts, `idx` indexes the backend
response consumed by each `requests.post`, and `delay`/`last_err` are the
loop variables.  The second component is the trace of observable effects. -/
def hfAttempts (env : ℕ → HFResp) :
    ℕ → ℕ → ℕ → Option String → Except PyExc (JVal × ℕ) × List Ev
  | 0, _, _, last_err => (.ok (exhaustBody last_err, 502), [])
  | rem + 1, idx, delay, _last_err =>
      match env idx with
      | .exn msg =>
          let r := hfAttempts env rem (idx + 1) (nextDelay delay) (some msg)
          (r.1, .hfCall :: .sleep delay :: r.2)
      | .http status body text =>
          if status = 503 then
            let r := hfAttempts env rem (idx + 1) (nextDelay delay) (some text)
            (r.1, .hfCall :: .sleep delay :: r.2)
          else if ¬ (200 ≤ status ∧ status < 300) then
            match body with
            | some (.obj kvs) => (.ok (.obj (enrich kvs status), status), [.hfCall])
            | some _ => (.error .attributeError, [.hfCall])
            | none =>
                (.ok (.obj (enrich [("raw", .str text)] status), status), [.hfCall])
          else
            match body with
            | some v => (.ok (v, status), [.hfCall])
            | none =>
                let r := hfAttempts env rem (idx + 1) (nextDelay delay) (some jsonDecodeMsg)
                (r.1, .hfCall :: .sleep delay :: r.2)

/-- `call_hf_inference` of src/main.py (lines 107-145): at most `retries`
attempts (the Python default is 3), initial backoff delay 2. -/
def call_hf_inference (env : ℕ → HFResp) (retries : ℕ) :
    Except PyExc (JVal × ℕ) × List Ev :=
  hfAttempts env retries 0 2 none

/-- `call_hf` of src/service.py (lines 29-65), behaviourally identical to
`call_hf_inference`. -/
def call_hf (env : ℕ → HFResp) (retries : ℕ) :
    Except PyExc (JVal × ℕ) × List Ev :=
  hfAttempts env retries 0 2 none

/-- A request to an upload endpoint: the multipart field `file` is missing,
or it carries the uploaded bytes. -/
inductive Upload where
  | noFile
  | file (bytes : List ℕ)

/-- Error message for a missing `file` field (identical in both files). -/
def noFileMsg : String := "No file uploaded. Use form-data with key \x27file\x27."

/-- The score key `float(x.get("score", 0.0))` applied to one payload entry
by both `/predict` handlers; a non-dict entry raises `AttributeError` and a
non-coercible score raises `ValueError`/`TypeError` (both are caught by the
surrounding `except Exception`). -/
def scoreKey : JVal → Except Unit ℚ
  | .obj kvs => pyFloat ((List.lookup "score" kvs).getD (.num 0))
  | _ => .error ()

/-- Each payload entry paired with its coerced score, or the first raised
exception (the exception propagates, as in the CPython iteration). -/
def keyed : List JVal → Except Unit (List (JVal × ℚ))
  | [] => .ok []
  | x :: xs =>
      match scoreKey x with
      | .error e => .error e
      | .ok k =>
          match keyed xs with
          | .error e => .error e
          | .ok ks => .ok ((x, k) :: ks)

/-- Insertion step of a stable descending sort by score, the behaviour of
CPython `sorted(..., key=..., reverse=True)`: entries with equal scores keep
their encounter order. -/
def insDesc (x : JVal × ℚ) : List (JVal × ℚ) → List (JVal × ℚ)
  | [] => [x]
  | y :: ys => if y.2 ≤ x.2 then x :: y :: ys else y :: insDesc x ys

/-- Stable descending sort by score. -/
def sortDesc : List (JVal × ℚ) → List (JVal × ℚ)
  | [] => []
  | x :: xs => insDesc x (sortDesc xs)

/-- CPython `max(..., key=...)`: left fold keeping the first entry whose key
is maximal (a later entry replaces the current best only when strictly
greater). -/
def pyMaxRun (b : JVal × ℚ) : List (JVal × ℚ) → JVal × ℚ
  | [] => b
  | x :: xs => pyMaxRun (if b.2 < x.2 then x else b) xs

/-- Shared tail of both `/predict` handlers (src/main.py lines 166-180 and
src/service.py lines 85-100, textually identical): shape-check the payload,
then compute the stable maximum and the descending top-5, or surface a 502
error body.  The empty-payload and non-list and non-dict-head cases take the
`Unexpected HF response` branch; a raised score key (and CPython `max` on an
empty iterable) takes the `Could not interpret HF scores` branch. -/
def hfNormalize (payload : JVal) : JVal × ℕ :=
  match payload with
  | .arr (x :: xs) =>
      match x with
      | .obj _ =>
          match keyed (x :: xs) with
          | .ok (k0 :: ks) =>
              (.obj [("predicted_class", ((pyMaxRun k0 ks).1.get? "label").getD .null),
                     ("confidence", .num (pyMaxRun k0 ks).2),
                     ("topK", .arr (((sortDesc (k0 :: ks)).take 5).map Prod.fst))], 200)
          | _ => (.obj [("error", .str "Could not interpret HF scores"),
                        ("raw", payload)], 502)
      | _ => (.obj [("error", .str "Unexpected HF response"), ("raw", payload)], 502)
  | _ => (.obj [("error", .str "Unexpected HF response"), ("raw", payload)], 502)

/-- The `/predict` handler of src/main.py (lines 148-180).  `pilOk` is the
outcome of the `PIL.Image.open(io.BytesIO(image_bytes)).verify()` sanity
check on the uploaded bytes (it fails on empty and non-image payloads). -/
def main_predict (pilOk : List ℕ → Bool) (env : ℕ → HFResp) :
    Upload → Except PyExc (JVal × ℕ) × List Ev
  | .noFile => (.ok (.obj [("error", .str noFileMsg)], 400), [])
  | .file bytes =>
      if pilOk bytes then
        match call_hf_inference env 3 with
        | (.error e, tr) => (.error e, tr)
        | (.ok (payload, code), tr) =>
            if code ≠ 200 then (.ok (payload, code), tr)
            else (.ok (hfNormalize payload), tr)
      else (.ok (.obj [("error", .str "Invalid image data")], 400), [])

/-- One label of a Rekognition `detect_labels` response, at the typed level
of the `boto3` API: the label `Name`, the `Confidence` as a percentage, and
the `Name`s of the declared `Parents`.  The `lab.get`/`p.get` defaults in
src/main.py lines 63-65 correspond to absent fields, which the service
schema always supplies. -/
structure RekLabel where
  name : String
  confidence : ℚ
  parents : List String

/-- Outcome of the single `detect_labels` call: the returned label list, or
any raised exception (caught at src/main.py line 50).  The request
parameters `MaxLabels=25` and `MinConfidence=int(BIRD_MIN_CONF * 100)` only
shape which labels the environment returns. -/
inductive RekResp where
  | labels (ls : List RekLabel)
  | exn (msg : String)

/-- Python `str.lower()` as applied to label names (character-wise ASCII
lowering, written over the character list so that it evaluates
structurally). -/
def pyLower (s : String) : String := String.mk (s.data.map Char.toLower)

/-- The bird-likeness test of src/main.py line 66: the lowercased name is
`bird`, or `bird` is among the lowercased parent names. -/
def birdLike (lab : RekLabel) : Bool :=
  pyLower lab.name == "bird" || (lab.parents.map pyLower).contains "bird"

/-- The label scan of src/main.py lines 60-68: fold over the labels keeping
the strictly largest bird-like confidence (as a 0-1 fraction, starting from
0.0) together with its label name (starting from `None`). -/
def scanLabels : List RekLabel → ℚ × Option String → ℚ × Option String
  | [], acc => acc
  | lab :: rest, acc =>
      if birdLike lab ∧ acc.1 < lab.confidence / 100 then
        scanLabels rest (lab.confidence / 100, some lab.name)
      else
        scanLabels rest acc

/-- Round to hundredths with ties to even, the rounding CPython `f"{x:.2f}"`
formatting applies on exactly representable values. -/
def round2 (q : ℚ) : ℤ :=
  let f : ℤ := ⌊q * 100⌋
  let r : ℚ := q * 100 - f
  if r < 1 / 2 then f
  else if (1 : ℚ) / 2 < r then f + 1
  else if f % 2 = 0 then f else f + 1

/-- Decimal rendering with two fractional digits, modelling `f"{x:.2f}"`. -/
def fmt2 (q : ℚ) : String :=
  let n := round2 q
  let sgn := if n < 0 then "-" else ""
  let a := n.natAbs
  sgn ++ toString (a / 100) ++ "." ++
    (if a % 100 < 10 then "0" else "") ++ toString (a % 100)

/-- The human-readable message of the `not_bird` outcome
(src/main.py line 83). -/
def notBirdMsg (c : ℚ) : String :=
  "Doesn’t look like a bird (max confidence " ++ fmt2 c ++
    "). Try a closer, sharper photo."

/-- The decision src/main.py lines 70-85 take on the scan outcome
`(best_conf, best_name)`: `if best_name and best_conf >= BIRD_MIN_CONF`
(Python truthiness: `None` and `""` are falsy) returns the ok body with
status 200, otherwise the not-bird body with status 422. -/
def verdict (threshold : ℚ) (best : ℚ × Option String) : JVal × ℕ :=
  match best.2 with
  | some n =>
      if n ≠ "" ∧ threshold ≤ best.1 then
        (.obj [("ok", .bool true), ("label", .str n),
               ("confidence", .num best.1), ("message", .str ""),
               ("error", .null)], 200)
      else
        (.obj [("ok", .bool false), ("label", .null),
               ("confidence", .num best.1),
               ("message", .str (notBirdMsg best.1)),
               ("error", .str "not_bird")], 422)
  | none =>
      (.obj [("ok", .bool false), ("label", .null),
             ("confidence", .num best.1),
             ("message", .str (notBirdMsg best.1)),
             ("error", .str "not_bird")], 422)

/-- `_verify_with_rekognition` of src/main.py (lines 38-85); `threshold` is
the `BIRD_MIN_CONF` configuration (default 0.85).  The function catches the
backend exception itself and otherwise cannot raise, so it returns a plain
`(uniform_body, http_status)` pair. -/
def verify_with_rekognition (threshold : ℚ) (resp : RekResp) : JVal × ℕ :=
  match resp with
  | .exn msg =>
      (.obj [("ok", .bool false), ("label", .null), ("confidence", .num 0),
             ("message", .str msg), ("error", .str "rekognition_error")], 502)
  | .labels ls => verdict threshold (scanLabels ls (0, none))

/-- The `/VerifyBirdImage` handler of src/main.py (lines 87-101, including
its lowercase and kebab-case alias routes).  `pilOk` is the PIL image
sanity check, as in `main_predict`. -/
def verify_bird_image (pilOk : List ℕ → Bool) (threshold : ℚ)
    (renv : RekResp) : Upload → (JVal × ℕ) × List Ev
  | .noFile => ((.obj [("error", .str noFileMsg)], 400), [])
  | .file bytes =>
      if pilOk bytes then (verify_with_rekognition threshold renv, [.rekCall])
      else ((.obj [("error", .str "Invalid image data")], 400), [])

/-- Claim-side predicate: one payload entry is a label/score record exactly
when the handlers can coerce its (defaulted) score, i.e. when it is a JSON
object whose `score`, if present, converts with `float`. -/
def isLabelScoreRecord (v : JVal) : Bool :=
  match scoreKey v with
  | .ok _ => true
  | .error _ => false

/-- Claim-side predicate: a successful payload is a non-empty ordered
sequence of label/score records. -/
def isRecordSeq : JVal → Bool
  | .arr xs => !xs.isEmpty && xs.all isLabelScoreRecord
  | _ => false

/-- The score the handlers compute for a record entry (0 for non-records;
only used under `isLabelScoreRecord`). -/
def scoreOf (v : JVal) : ℚ :=
  match scoreKey v with
  | .ok q => q
  | .error _ => 0

/-- A dedicated name for the sequence of label/score records together with
the scores the handlers attach to them. -/
def keyedOf (xs : List JVal) : List (JVal × ℚ) :=
  xs.map (fun v => (v, scoreOf v))

/-- The `/predict` handler of src/service.py (lines 67-100).  It differs
from src/main.py only in the pass-through gate: `code >= 400` instead of
`code != 200`. -/
def service_predict (pilOk : List ℕ → Bool) (env : ℕ → HFResp) :
    Upload → Except PyExc (JVal × ℕ) × List Ev
  | .noFile => (.ok (.obj [("error", .str noFileMsg)], 400), [])
  | .file bytes =>
      if pilOk bytes then
        match call_hf env 3 with
        | (.error e, tr) => (.error e, tr)
        | (.ok (out, code), tr) =>
            if 400 ≤ code then (.ok (out, code), tr)
            else (.ok (hfNormalize out), tr)
      else (.ok (.obj [("error", .str "Invalid image data")], 400), [])

/-!  Lemmas about the backoff schedule and the retry loop. -/

/-- The backoff delay in force at the start of attempt `i`, counting from a
first-attempt delay of `d`. -/
def delayAt (d : ℕ) : ℕ → ℕ
  | 0 => d
  | i + 1 => delayAt (nextDelay d) i

/-- The trace contributed by `k` consecutive retried attempts. -/
def retryTrace (delay k : ℕ) : List Ev :=
  (List.range k).flatMap fun i => [Ev.hfCall, Ev.sleep (delayAt delay i)]

theorem nextDelay_min_pow (j : ℕ) :
    nextDelay (min (2 ^ (j + 1)) 16) = min (2 ^ (j + 2)) 16 := by
  have hp : (2 : ℕ) ^ (j + 2) = 2 ^ (j + 1) * 2 := pow_succ 2 (j + 1)
  unfold nextDelay
  rcases le_total (2 ^ (j + 1)) 16 with h | h
  · rw [min_eq_left h, hp]
  · have h2 : (16 : ℕ) ≤ 2 ^ (j + 2) :=
      le_trans h (Nat.pow_le_pow_right (by omega) (by omega))
    rw [min_eq_right h, min_eq_right h2]
    omega

theorem delayAt_min_pow (i j : ℕ) :
    delayAt (min (2 ^ (j + 1)) 16) i = min (2 ^ (j + 1 + i)) 16 := by
  induction i generalizing j with
  | zero => rfl
  | succ i ih =>
      show delayAt (nextDelay (min (2 ^ (j + 1)) 16)) i = _
      rw [nextDelay_min_pow, ih (j + 1), show j + 1 + 1 + i = j + 1 + (i + 1) by omega]

/-- The delays slept by the clients are 2, 4, 8, 16, 16, ... -/
theorem delayAt_two (i : ℕ) : delayAt 2 i = min (2 * 2 ^ i) 16 := by
  have h := delayAt_min_pow i 0
  rw [show (2 : ℕ) ^ (0 + 1) = 2 by norm_num, show 0 + 1 + i = i + 1 by omega] at h
  rw [show min (2 : ℕ) 16 = 2 by norm_num] at h
  rw [h, pow_succ, Nat.mul_comm]

theorem retryTrace_succ (d k : ℕ) :
    retryTrace d (k + 1) = Ev.hfCall :: Ev.sleep d :: retryTrace (nextDelay d) k := by
  unfold retryTrace
  rw [List.range_succ_eq_map, List.flatMap_cons, List.flatMap_map]
  simp only [delayAt]
  rfl

/-- Peeling `k` consecutive 503 responses off the retry loop: each consumes
one attempt, appends a call and a sleep of the current delay to the trace,
doubles the delay (capped), and records the response text in `last_err`. -/
theorem hfAttempts_skip (env : ℕ → HFResp) :
    ∀ (k : ℕ) (bodies : ℕ → Option JVal) (texts : ℕ → String)
      (rem idx delay : ℕ) (le : Option String), k ≤ rem →
      (∀ i, i < k → env (idx + i) = .http 503 (bodies i) (texts i)) →
      hfAttempts env rem idx delay le =
        ((hfAttempts env (rem - k) (idx + k) (delayAt delay k)
            (if k = 0 then le else some (texts (k - 1)))).1,
         retryTrace delay k ++
           (hfAttempts env (rem - k) (idx + k) (delayAt delay k)
              (if k = 0 then le else some (texts (k - 1)))).2) := by
  intro k
  induction k with
  | zero =>
      intro bodies texts rem idx delay le _ _
      simp [retryTrace, delayAt]
  | succ k ih =>
      intro bodies texts rem idx delay le hk h503
      obtain ⟨rem', rfl⟩ : ∃ m, rem = m + 1 := ⟨rem - 1, by omega⟩
      have henv : env idx = .http 503 (bodies 0) (texts 0) := by
        simpa using h503 0 (by omega)
      have hstep :
          hfAttempts env (rem' + 1) idx delay le =
            ((hfAttempts env rem' (idx + 1) (nextDelay delay) (some (texts 0))).1,
             .hfCall :: .sleep delay ::
               (hfAttempts env rem' (idx + 1) (nextDelay delay) (some (texts 0))).2) := by
        rw [hfAttempts, henv]
        simp
      have hrec := ih (fun i => bodies (i + 1)) (fun i => texts (i + 1))
        rem' (idx + 1) (nextDelay delay) (some (texts 0)) (by omega)
        (by
          intro i hi
          have h2 := h503 (i + 1) (by omega)
          rwa [show idx + (i + 1) = idx + 1 + i by omega] at h2)
      have hle : (if k = 0 then some (texts 0) else some (texts (k - 1 + 1))) =
          some (texts k) := by
        rcases k with _ | k2
        · simp
        · simp
      rw [hstep, hrec, hle]
      have hidx : idx + 1 + k = idx + (k + 1) := by omega
      have hrem : rem' - k = rem' + 1 - (k + 1) := by omega
      have hlast : (if k + 1 = 0 then le else some (texts (k + 1 - 1))) =
          some (texts k) := by simp
      rw [hidx, hrem, hlast, retryTrace_succ]
      rfl

/-!  Claims C1 to C4: the inference client. -/

/-- Environment exhibiting the claim C1 failure: the backend answers 400
with the body text `[1]`, which `r.json()` parses as a Python list. -/
def c1env : ℕ → HFResp := fun _ => .http 400 (some (.arr [.num 1])) "[1]"

/-- Claim C1 (code bug): contrary to the docstrings of `call_hf_inference`
and `call_hf` ("Never raises; always returns (payload, http_status)"), a
non-2xx non-503 response whose body parses as a JSON value that is not an
object makes `body.setdefault("error", ...)` raise `AttributeError`, which
is not a `requests.exceptions.RequestException` and therefore propagates to
the caller of both clients. -/
theorem claim_C1_bug :
    (call_hf_inference c1env 3).1 = .error .attributeError ∧
    (call_hf c1env 3).1 = .error .attributeError :=
  ⟨rfl, rfl⟩

/-- Claim C2: if the backend answers 503 exactly `k < retries` times and
then 2xx with a parseable body `v`, the client returns `(v, status)` and its
trace is call, sleep 2, call, sleep 4, ..., call: before each of the `k`
retries it sleeps the current backoff delay, the delays being
`min (2 * 2 ^ i) 16` = 2, 4, 8, 16, 16, ... -/
theorem claim_C2_retry_backoff (env : ℕ → HFResp) (retries k : ℕ)
    (bodies : ℕ → Option JVal) (texts : ℕ → String) (s : ℕ) (v : JVal)
    (text : String) (hk : k < retries)
    (h503 : ∀ i, i < k → env i = .http 503 (bodies i) (texts i))
    (hs : 200 ≤ s ∧ s < 300) (henv : env k = .http s (some v) text) :
    call_hf_inference env retries =
      (.ok (v, s),
       ((List.range k).flatMap fun i => [Ev.hfCall, Ev.sleep (min (2 * 2 ^ i) 16)])
         ++ [Ev.hfCall]) := by
  have hsk := hfAttempts_skip env k bodies texts retries 0 2 none (le_of_lt hk)
    (by intro i hi; simpa using h503 i hi)
  unfold call_hf_inference
  rw [hsk]
  obtain ⟨rem', hrem⟩ : ∃ m, retries - k = m + 1 := ⟨retries - k - 1, by omega⟩
  rw [hrem]
  have h0k : 0 + k = k := by omega
  rw [h0k]
  have hstep :
      hfAttempts env (rem' + 1) k (delayAt 2 k)
          (if k = 0 then none else some (texts (k - 1))) =
        (.ok (v, s), [Ev.hfCall]) := by
    have h1 : ¬ (s = 503) := by omega
    simp only [hfAttempts, henv]
    rw [if_neg h1, if_neg (not_not_intro hs)]
  rw [hstep]
  simp only [retryTrace, delayAt_two]

/-- Concrete environment for the claim C2 witness: two 503 responses, then
200 with a one-record payload. -/
def c2arr : JVal := .arr [.obj [("label", .str "Robin"), ("score", .num (9 / 10))]]

/-- Witness environment for claim C2. -/
def c2env : ℕ → HFResp := fun i =>
  if i < 2 then .http 503 none "loading" else .http 200 (some c2arr) "ok"

/-- Witness for claim C2 at `k = 2`, `retries = 3`. -/
theorem claim_C2_retry_backoff_witness :
    (2 < 3 ∧ (200 ≤ 200 ∧ 200 < 300) ∧ c2env 2 = .http 200 (some c2arr) "ok") ∧
    call_hf_inference c2env 3 =
      (.ok (c2arr, 200),
       [Ev.hfCall, Ev.sleep 2, Ev.hfCall, Ev.sleep 4, Ev.hfCall]) := by
  refine ⟨⟨by omega, by omega, rfl⟩, ?_⟩
  have h := claim_C2_retry_backoff c2env 3 2 (fun _ => none) (fun _ => "loading")
    200 c2arr "ok" (by omega) (by intro i hi; interval_cases i <;> rfl)
    (by omega) rfl
  exact h.trans (by rfl)

/-- Claim C3: if the backend answers 503 on every attempt, the client makes
exactly `retries` calls (the trace counts `retries` backend calls), then
returns the error payload with status 502 — a normal return, not a raised
exception. -/
theorem claim_C3_exhaust (env : ℕ → HFResp) (retries : ℕ)
    (bodies : ℕ → Option JVal) (texts : ℕ → String)
    (h503 : ∀ i, i < retries → env i = .http 503 (bodies i) (texts i)) :
    call_hf_inference env retries =
      (.ok (exhaustBody (if retries = 0 then none else some (texts (retries - 1))), 502),
       (List.range retries).flatMap fun i =>
         [Ev.hfCall, Ev.sleep (min (2 * 2 ^ i) 16)]) ∧
    ((List.range retries).flatMap fun i =>
        [Ev.hfCall, Ev.sleep (min (2 * 2 ^ i) 16)]).count Ev.hfCall = retries := by
  constructor
  · have hsk := hfAttempts_skip env retries bodies texts retries 0 2 none le_rfl
      (by intro i hi; simpa using h503 i hi)
    unfold call_hf_inference
    rw [hsk, Nat.sub_self]
    rw [hfAttempts]
    simp only [retryTrace, delayAt_two, List.append_nil]
  · clear h503
    induction retries with
    | zero => rfl
    | succ n ih =>
        rw [List.range_succ, List.flatMap_append, List.count_append, ih]
        simp [List.count_cons]

/-- Witness environment for claim C3: every attempt gets a 503. -/
def c3env : ℕ → HFResp := fun _ => .http 503 none "loading"

/-- Witness for claim C3 at the default `retries = 3`. -/
theorem claim_C3_exhaust_witness :
    (∀ i, i < 3 → c3env i = .http 503 none "loading") ∧
    call_hf_inference c3env 3 =
      (.ok (.obj [("error", .str "HuggingFace request exception or timeout"),
                  ("detail", .str "loading")], 502),
       [Ev.hfCall, Ev.sleep 2, Ev.hfCall, Ev.sleep 4, Ev.hfCall, Ev.sleep 8]) ∧
    [Ev.hfCall, Ev.sleep 2, Ev.hfCall, Ev.sleep 4, Ev.hfCall, Ev.sleep 8].count
      Ev.hfCall = 3 := by
  refine ⟨by intro i _; rfl, ?_, by rfl⟩
  have h := (claim_C3_exhaust c3env 3 (fun _ => none) (fun _ => "loading")
    (by intro i _; rfl)).1
  exact h.trans (by rfl)

/-- Environment refuting claim C4 as stated: status 404 (neither 503 nor
2xx) with a body parsing to a JSON string. -/
def c4env : ℕ → HFResp := fun _ => .http 404 (some (.str "oops")) "x"

/-- Claim C4 counterexample: for the non-503 non-2xx response of `c4env`
the client does not return a `(payload, status)` pair at all — it raises
`AttributeError` from `body.setdefault`, because the parsed body is not a
dict. -/
theorem claim_C4_counterexample :
    (¬ (404 = 503) ∧ ¬ (200 ≤ 404 ∧ 404 < 300)) ∧
    (call_hf_inference c4env 3).1 = .error .attributeError :=
  ⟨by omega, rfl⟩

/-- Claim C4 amended: for a non-503 non-2xx response whose body parses as a
JSON object or does not parse at all, the client returns immediately on that
attempt — a single backend call, no sleep, no retry — with the backend's own
status code and the body (parsed, or `{"raw": text}`) enriched by the
defaulted `error` and `status_code` fields; and the src/main.py `/predict`
handler passes every non-200 client result through unchanged.  (For a body
parsing to a non-object JSON value the client instead raises, see the
counterexample.) -/
theorem claim_C4_amended :
    (∀ (env : ℕ → HFResp) (rem idx delay : ℕ) (le : Option String) (s : ℕ)
       (kvs : List (String × JVal)) (text : String),
       env idx = .http s (some (.obj kvs)) text → ¬ (s = 503) →
       ¬ (200 ≤ s ∧ s < 300) →
       hfAttempts env (rem + 1) idx delay le =
         (.ok (.obj (enrich kvs s), s), [Ev.hfCall])) ∧
    (∀ (env : ℕ → HFResp) (rem idx delay : ℕ) (le : Option String) (s : ℕ)
       (text : String),
       env idx = .http s none text → ¬ (s = 503) → ¬ (200 ≤ s ∧ s < 300) →
       hfAttempts env (rem + 1) idx delay le =
         (.ok (.obj (enrich [("raw", .str text)] s), s), [Ev.hfCall])) ∧
    (∀ (pilOk : List ℕ → Bool) (env : ℕ → HFResp) (bytes : List ℕ)
       (p : JVal) (c : ℕ) (tr : List Ev),
       pilOk bytes = true → call_hf_inference env 3 = (.ok (p, c), tr) →
       ¬ (c = 200) →
       main_predict pilOk env (.file bytes) = (.ok (p, c), tr)) := by
  refine ⟨?_, ?_, ?_⟩
  · intro env rem idx delay le s kvs text henv h1 h2
    simp only [hfAttempts, henv]
    rw [if_neg h1, if_pos h2]
  · intro env rem idx delay le s text henv h1 h2
    simp only [hfAttempts, henv]
    rw [if_neg h1, if_pos h2]
  · intro pilOk env bytes p c tr hpil hcall hc
    simp only [main_predict, hpil, if_true, hcall]
    rw [if_pos hc]

/-- Witness environment for the amended claim C4: a 401 response whose body
is a JSON object that already has an `error` field. -/
def c4wenv : ℕ → HFResp := fun _ => .http 401 (some (.obj [("error", .str "bad")])) "x"

/-- Witness for the amended claim C4 at a 401 response with an object body,
including the pass-through of the main `/predict` handler. -/
theorem claim_C4_amended_witness :
    (c4wenv 0 = .http 401 (some (.obj [("error", .str "bad")])) "x" ∧
     ¬ (401 = 503) ∧ ¬ (200 ≤ 401 ∧ 401 < 300)) ∧
    hfAttempts c4wenv 3 0 2 none =
      (.ok (.obj [("error", .str "bad"), ("status_code", .num 401)], 401),
       [Ev.hfCall]) ∧
    main_predict (fun _ => true) c4wenv (.file []) =
      (.ok (.obj [("error", .str "bad"), ("status_code", .num 401)], 401),
       [Ev.hfCall]) := by
  refine ⟨⟨rfl, by omega, by omega⟩, ?_, ?_⟩
  · have h := claim_C4_amended.1 c4wenv 2 0 2 none 401 [("error", .str "bad")]
      "x" rfl (by omega) (by omega)
    exact h.trans (by rfl)
  · have h := claim_C4_amended.2.2 (fun _ => true) c4wenv []
      (.obj [("error", .str "bad"), ("status_code", .num 401)]) 401 [Ev.hfCall]
      rfl (by rfl) (by omega)
    exact h

/-!  Claim C7: invalid uploads are rejected before any network call. -/

/-- Claim C7: when the PIL sanity check fails on the uploaded bytes — which
it does for the empty upload and for any bytes that do not decode as an
image — both the `/predict` and the `/VerifyBirdImage` handler return the
400 invalid-image body and their effect trace is empty: no classification
call, no label-detection call, no sleep. -/
theorem claim_C7_no_network_on_invalid (pilOk : List ℕ → Bool)
    (env : ℕ → HFResp) (threshold : ℚ) (renv : RekResp) (bytes : List ℕ)
    (hpil : pilOk bytes = false) :
    main_predict pilOk env (.file bytes) =
      (.ok (.obj [("error", .str "Invalid image data")], 400), []) ∧
    verify_bird_image pilOk threshold renv (.file bytes) =
      ((.obj [("error", .str "Invalid image data")], 400), []) := by
  constructor
  · simp [main_predict, hpil]
  · simp [verify_bird_image, hpil]

/-- Witness for claim C7: a PIL check that rejects the empty upload. -/
theorem claim_C7_no_network_on_invalid_witness :
    ((fun (_ : List ℕ) => false) [] = false) ∧
    main_predict (fun _ => false) c1env (.file []) =
      (.ok (.obj [("error", .str "Invalid image data")], 400), []) ∧
    verify_bird_image (fun _ => false) (85 / 100) (.exn "unused") (.file []) =
      ((.obj [("error", .str "Invalid image data")], 400), []) := by
  refine ⟨rfl, ?_⟩
  exact claim_C7_no_network_on_invalid (fun _ => false) c1env (85 / 100)
    (.exn "unused") [] rfl

/-!  Claims C8 and C9: the verification path. -/

/-- The scan result never decreases the best confidence. -/
theorem scanLabels_fst_mono (ls : List RekLabel) :
    ∀ (bc : ℚ) (bn : Option String), bc ≤ (scanLabels ls (bc, bn)).1 := by
  induction ls with
  | nil => intro bc bn; simp [scanLabels]
  | cons lab rest ih =>
      intro bc bn
      rw [scanLabels]
      split
      · rename_i h
        exact le_trans (le_of_lt h.2) (ih _ _)
      · exact ih bc bn

/-- The scan result dominates the confidence of every bird-like label. -/
theorem scanLabels_fst_ub (ls : List RekLabel) :
    ∀ (bc : ℚ) (bn : Option String) (lab : RekLabel), lab ∈ ls →
      birdLike lab = true → lab.confidence / 100 ≤ (scanLabels ls (bc, bn)).1 := by
  induction ls with
  | nil => intro bc bn lab h; simp at h
  | cons lab0 rest ih =>
      intro bc bn lab hmem hbird
      rcases List.mem_cons.mp hmem with rfl | hmem2
      · rw [scanLabels]
        split
        · exact scanLabels_fst_mono rest _ _
        · rename_i hneg
          have : ¬ (bc < lab.confidence / 100) := by
            intro hlt; exact hneg ⟨hbird, hlt⟩
          exact le_trans (le_of_not_lt this) (scanLabels_fst_mono rest bc bn)
      · rw [scanLabels]
        split
        · exact ih _ _ lab hmem2 hbird
        · exact ih _ _ lab hmem2 hbird

/-- The scan either keeps its accumulator or ends on a bird-like label of
the list, whose confidence and name it returns. -/
theorem scanLabels_attained (ls : List RekLabel) :
    ∀ (bc : ℚ) (bn : Option String),
      scanLabels ls (bc, bn) = (bc, bn) ∨
      ∃ lab ∈ ls, birdLike lab = true ∧
        scanLabels ls (bc, bn) = (lab.confidence / 100, some lab.name) := by
  induction ls with
  | nil => intro bc bn; left; rfl
  | cons lab0 rest ih =>
      intro bc bn
      rw [scanLabels]
      split
      · rename_i hcond
        rcases ih (lab0.confidence / 100) (some lab0.name) with h | ⟨lab, hm, hb, he⟩
        · right; exact ⟨lab0, List.mem_cons_self _ _, hcond.1, h⟩
        · right; exact ⟨lab, List.mem_cons_of_mem _ hm, hb, he⟩
      · rcases ih bc bn with h | ⟨lab, hm, hb, he⟩
        · left; exact h
        · right; exact ⟨lab, List.mem_cons_of_mem _ hm, hb, he⟩

/-- Unfolding of the verify operation on a known scan outcome. -/
theorem verify_labels_eq (threshold : ℚ) (ls : List RekLabel)
    (bc : ℚ) (bn : Option String) (hscan : scanLabels ls (0, none) = (bc, bn)) :
    verify_with_rekognition threshold (.labels ls) = verdict threshold (bc, bn) := by
  have h : verify_with_rekognition threshold (.labels ls) =
      verdict threshold (scanLabels ls (0, none)) := rfl
  rw [h, hscan]

/-- Verdict on a scan that found no usable name. -/
theorem verdict_none (threshold bc : ℚ) :
    verdict threshold (bc, none) =
      (.obj [("ok", .bool false), ("label", .null), ("confidence", .num bc),
             ("message", .str (notBirdMsg bc)), ("error", .str "not_bird")], 422) := rfl

/-- Verdict on a scan that found a name. -/
theorem verdict_some (threshold bc : ℚ) (n : String) :
    verdict threshold (bc, some n) =
      if n ≠ "" ∧ threshold ≤ bc then
        (.obj [("ok", .bool true), ("label", .str n), ("confidence", .num bc),
               ("message", .str ""), ("error", .null)], 200)
      else
        (.obj [("ok", .bool false), ("label", .null), ("confidence", .num bc),
               ("message", .str (notBirdMsg bc)), ("error", .str "not_bird")], 422) := rfl

/-- The label list refuting claim C8 as stated: a label with an empty name,
parent `Bird`, and confidence 90% — bird-like and above the default 0.85
threshold, yet rejected because `if best_name` treats `""` as falsy. -/
def c8labels : List RekLabel := [⟨"", 90, ["Bird"]⟩]

/-- Claim C8 counterexample: with the default threshold 0.85, `c8labels`
contains a bird-like label whose fractional confidence reaches the
threshold, but the verification result still has `ok = false` (and status
422), refuting the claimed iff. -/
theorem claim_C8_counterexample :
    (∃ lab ∈ c8labels, birdLike lab = true ∧ (85 : ℚ) / 100 ≤ lab.confidence / 100) ∧
    (verify_with_rekognition (85 / 100) (.labels c8labels)).1.get? "ok" =
      some (.bool false) ∧
    (verify_with_rekognition (85 / 100) (.labels c8labels)).2 = 422 := by
  have hb : birdLike ⟨"", 90, ["Bird"]⟩ = true := rfl
  have hscan : scanLabels c8labels (0, none) = (90 / 100, some "") := by
    show scanLabels [⟨"", 90, ["Bird"]⟩] (0, none) = (90 / 100, some "")
    rw [scanLabels, if_pos ⟨hb, by norm_num⟩]
    rfl
  have hv := verify_labels_eq (85 / 100) c8labels (90 / 100) (some "") hscan
  rw [verdict_some] at hv
  rw [if_neg (by simp)] at hv
  refine ⟨⟨⟨"", 90, ["Bird"]⟩, ?_, hb, ?_⟩, ?_, ?_⟩
  · simp [c8labels]
  · norm_num
  · rw [hv]
    rfl
  · rw [hv]

/-- Claim C8 amended: under the extra assumptions that the threshold is
positive (the default is 0.85) and that every bird-like label has a
non-empty name, the verification result on a label list has `ok = true` iff
some bird-like label reaches the threshold (confidence converted from
percentage to a 0-1 fraction); when `ok = true` the returned label and
confidence are those of a maximal bird-like label and the status is 200;
when `ok = false` the result is `not_bird` with status 422 and reports the
best observed bird-like confidence — 0 when none was observed. -/
theorem claim_C8_amended (θ : ℚ) (ls : List RekLabel) (hθ : 0 < θ)
    (hn : ∀ lab ∈ ls, birdLike lab = true → lab.name ≠ "") :
    ((verify_with_rekognition θ (.labels ls)).1.get? "ok" = some (.bool true) ↔
       ∃ lab ∈ ls, birdLike lab = true ∧ θ ≤ lab.confidence / 100) ∧
    ((verify_with_rekognition θ (.labels ls)).1.get? "ok" = some (.bool true) →
       ∃ lab ∈ ls, birdLike lab = true ∧
         (verify_with_rekognition θ (.labels ls)).1.get? "label" =
           some (.str lab.name) ∧
         (verify_with_rekognition θ (.labels ls)).1.get? "confidence" =
           some (.num (lab.confidence / 100)) ∧
         (verify_with_rekognition θ (.labels ls)).2 = 200 ∧
         ∀ lab2 ∈ ls, birdLike lab2 = true →
           lab2.confidence / 100 ≤ lab.confidence / 100) ∧
    ((verify_with_rekognition θ (.labels ls)).1.get? "ok" = some (.bool false) →
       (verify_with_rekognition θ (.labels ls)).1.get? "error" =
         some (.str "not_bird") ∧
       (verify_with_rekognition θ (.labels ls)).2 = 422 ∧
       ∃ c, (verify_with_rekognition θ (.labels ls)).1.get? "confidence" =
           some (.num c) ∧
         (∀ lab ∈ ls, birdLike lab = true → lab.confidence / 100 ≤ c) ∧
         (c = 0 ∨ ∃ lab ∈ ls, birdLike lab = true ∧ c = lab.confidence / 100)) ∧
    ((verify_with_rekognition θ (.labels ls)).1.get? "ok" = some (.bool true) ∨
     (verify_with_rekognition θ (.labels ls)).1.get? "ok" = some (.bool false)) := by
  obtain ⟨bc, bn, hscan⟩ : ∃ bc bn, scanLabels ls (0, none) = (bc, bn) := ⟨_, _, rfl⟩
  have hub : ∀ lab ∈ ls, birdLike lab = true → lab.confidence / 100 ≤ bc := by
    intro lab hm hb
    have h := scanLabels_fst_ub ls 0 none lab hm hb
    rwa [hscan] at h
  have hatt := scanLabels_attained ls 0 none
  rw [hscan] at hatt
  rw [verify_labels_eq θ ls bc bn hscan]
  rcases bn with _ | n
  · -- best_name is None: not-bird branch
    rw [verdict_none]
    have hno : ¬ ∃ lab ∈ ls, birdLike lab = true ∧ θ ≤ lab.confidence / 100 := by
      rintro ⟨lab, hm, hb, hθc⟩
      rcases hatt with h | ⟨lab2, _, _, h⟩
      · have h1 : bc = 0 := congrArg Prod.fst h
        have hbc : θ ≤ bc := le_trans hθc (hub lab hm hb)
        rw [h1] at hbc
        exact absurd (lt_of_lt_of_le hθ hbc) (lt_irrefl 0)
      · have h2 : (none : Option String) = some lab2.name := congrArg Prod.snd h
        simp at h2
    refine ⟨?_, ?_, ?_, Or.inr rfl⟩
    · constructor
      · intro h
        have h2 : some (JVal.bool false) = some (JVal.bool true) := h
        simp at h2
      · intro h
        exact absurd h hno
    · intro h
      have h2 : some (JVal.bool false) = some (JVal.bool true) := h
      simp at h2
    · intro _
      refine ⟨rfl, rfl, bc, rfl, hub, ?_⟩
      rcases hatt with h | ⟨lab, hm, hb, h⟩
      · exact Or.inl (congrArg Prod.fst h)
      · exact Or.inr ⟨lab, hm, hb, congrArg Prod.fst h⟩
  · -- best_name is some n
    have hname : ∃ lab ∈ ls, birdLike lab = true ∧ bc = lab.confidence / 100 ∧
        n = lab.name := by
      rcases hatt with h | ⟨lab, hm, hb, h⟩
      · have h2 : (some n : Option String) = none := congrArg Prod.snd h
        simp at h2
      · have h1 : bc = lab.confidence / 100 := congrArg Prod.fst h
        have h2 : (some n : Option String) = some lab.name := congrArg Prod.snd h
        simp at h2
        exact ⟨lab, hm, hb, h1, h2⟩
    rw [verdict_some]
    by_cases hcond : n ≠ "" ∧ θ ≤ bc
    · rw [if_pos hcond]
      obtain ⟨lab, hm, hb, hbc, hnn⟩ := hname
      refine ⟨?_, ?_, ?_, Or.inl rfl⟩
      · constructor
        · intro _
          exact ⟨lab, hm, hb, hbc ▸ hcond.2⟩
        · intro _
          rfl
      · intro _
        refine ⟨lab, hm, hb, ?_, ?_, rfl, ?_⟩
        · rw [hnn]
          rfl
        · rw [hbc]
          rfl
        · intro lab2 hm2 hb2
          exact hbc ▸ hub lab2 hm2 hb2
      · intro h
        have h2 : some (JVal.bool true) = some (JVal.bool false) := h
        simp at h2
    · rw [if_neg hcond]
      have hno : ¬ ∃ lab ∈ ls, birdLike lab = true ∧ θ ≤ lab.confidence / 100 := by
        rintro ⟨lab2, hm2, hb2, hθc⟩
        obtain ⟨lab, hm, hb, _, hnn⟩ := hname
        exact hcond ⟨hnn ▸ hn lab hm hb, le_trans hθc (hub lab2 hm2 hb2)⟩
      refine ⟨?_, ?_, ?_, Or.inr rfl⟩
      · constructor
        · intro h
          have h2 : some (JVal.bool false) = some (JVal.bool true) := h
          simp at h2
        · intro h
          exact absurd h hno
      · intro h
        have h2 : some (JVal.bool false) = some (JVal.bool true) := h
        simp at h2
      · intro _
        refine ⟨rfl, rfl, bc, rfl, hub, ?_⟩
        obtain ⟨lab, hm, hb, hbc, _⟩ := hname
        exact Or.inr ⟨lab, hm, hb, hbc⟩

/-- Witness for the amended claim C8: the spec's own example label
(`Swallow`, parent `Bird`, confidence 90%) at the default threshold. -/
theorem claim_C8_amended_witness :
    ((0 : ℚ) < 85 / 100) ∧
    ((verify_with_rekognition (85 / 100)
        (.labels [⟨"Swallow", 90, ["Bird"]⟩])).1.get? "ok" = some (.bool true) ↔
      ∃ lab ∈ [(⟨"Swallow", 90, ["Bird"]⟩ : RekLabel)],
        birdLike lab = true ∧ (85 : ℚ) / 100 ≤ lab.confidence / 100) := by
  refine ⟨by norm_num, ?_⟩
  exact (claim_C8_amended (85 / 100) [⟨"Swallow", 90, ["Bird"]⟩] (by norm_num)
    (by
      intro lab hm _
      rcases List.mem_singleton.mp hm with rfl
      decide)).1

/-- Claim C9 counterexample: a failing label-detection call yields
`ok = false` with the error kind `"rekognition_error"` (mapped to 502), not
the `"backend_error"` the claim states. -/
theorem claim_C9_counterexample :
    (verify_with_rekognition (85 / 100) (.exn "connection error")).1.get? "ok" =
      some (.bool false) ∧
    (verify_with_rekognition (85 / 100) (.exn "connection error")).1.get? "error" =
      some (.str "rekognition_error") ∧
    ¬ ("rekognition_error" = "backend_error") ∧
    (verify_with_rekognition (85 / 100) (.exn "connection error")).2 = 502 :=
  ⟨rfl, rfl, by decide, rfl⟩

/-- Claim C9 amended: the verification handler makes exactly one
label-detection call per validated request and passes the operation's result
through; every failure of that call yields `ok = false` with error kind
`"rekognition_error"` (the code's name for the spec's `backend_error`) and
status 502; `ok = true` results carry status 200 and `"not_bird"` results
carry status 422. -/
theorem claim_C9_amended :
    (∀ (pilOk : List ℕ → Bool) (threshold : ℚ) (renv : RekResp)
       (bytes : List ℕ), pilOk bytes = true →
       verify_bird_image pilOk threshold renv (.file bytes) =
         (verify_with_rekognition threshold renv, [Ev.rekCall])) ∧
    (∀ (threshold : ℚ) (msg : String),
       verify_with_rekognition threshold (.exn msg) =
         (.obj [("ok", .bool false), ("label", .null), ("confidence", .num 0),
                ("message", .str msg), ("error", .str "rekognition_error")], 502)) ∧
    (∀ (threshold : ℚ) (renv : RekResp),
       ((verify_with_rekognition threshold renv).1.get? "ok" = some (.bool true) →
          (verify_with_rekognition threshold renv).2 = 200) ∧
       ((verify_with_rekognition threshold renv).1.get? "error" =
            some (.str "not_bird") →
          (verify_with_rekognition threshold renv).2 = 422) ∧
       ((verify_with_rekognition threshold renv).1.get? "error" =
            some (.str "rekognition_error") →
          (verify_with_rekognition threshold renv).2 = 502)) := by
  refine ⟨?_, ?_, ?_⟩
  · intro pilOk threshold renv bytes hpil
    simp [verify_bird_image, hpil]
  · intro threshold msg
    rfl
  · intro threshold renv
    rcases renv with ls | msg
    · obtain ⟨bc, bn, hscan⟩ : ∃ bc bn, scanLabels ls (0, none) = (bc, bn) :=
        ⟨_, _, rfl⟩
      rw [verify_labels_eq threshold ls bc bn hscan]
      rcases bn with _ | n
      · rw [verdict_none]
        refine ⟨?_, ?_, ?_⟩
        · intro h
          have h2 : some (JVal.bool false) = some (JVal.bool true) := h
          simp at h2
        · intro _
          rfl
        · intro h
          have h2 : some (JVal.str "not_bird") = some (JVal.str "rekognition_error") := h
          injection h2 with h3
          injection h3 with h4
          exact absurd h4 (by decide)
      · rw [verdict_some]
        by_cases hcond : n ≠ "" ∧ threshold ≤ bc
        · rw [if_pos hcond]
          refine ⟨?_, ?_, ?_⟩
          · intro _
            rfl
          · intro h
            have h2 : some JVal.null = some (JVal.str "not_bird") := h
            simp at h2
          · intro h
            have h2 : some JVal.null = some (JVal.str "rekognition_error") := h
            simp at h2
        · rw [if_neg hcond]
          refine ⟨?_, ?_, ?_⟩
          · intro h
            have h2 : some (JVal.bool false) = some (JVal.bool true) := h
            simp at h2
          · intro _
            rfl
          · intro h
            have h2 : some (JVal.str "not_bird") = some (JVal.str "rekognition_error") := h
            injection h2 with h3
            injection h3 with h4
            exact absurd h4 (by decide)
    · refine ⟨?_, ?_, ?_⟩
      · intro h
        have h2 : some (JVal.bool false) = some (JVal.bool true) := h
        simp at h2
      · intro h
        have h2 : some (JVal.str "rekognition_error") = some (JVal.str "not_bird") := h
        injection h2 with h3
        injection h3 with h4
        exact absurd h4 (by decide)
      · intro _
        rfl

/-- Witness for the amended claim C9: a failing backend call behind a valid
upload — the handler makes exactly one label-detection call and returns the
rekognition-error body with status 502. -/
theorem claim_C9_amended_witness :
    ((fun (_ : List ℕ) => true) [] = true) ∧
    verify_bird_image (fun _ => true) (85 / 100) (.exn "boom") (.file []) =
      (verify_with_rekognition (85 / 100) (.exn "boom"), [Ev.rekCall]) :=
  ⟨rfl, claim_C9_amended.1 (fun _ => true) (85 / 100) (.exn "boom") [] rfl⟩

/-!  Lemmas about the stable maximum and the stable descending sort used by
the `/predict` normalisation. -/

theorem insDesc_perm (x : JVal × ℚ) (l : List (JVal × ℚ)) :
    (insDesc x l).Perm (x :: l) := by
  induction l with
  | nil => exact List.Perm.refl _
  | cons y ys ih =>
      rw [insDesc]
      split
      · exact List.Perm.refl _
      · exact (ih.cons y).trans (List.Perm.swap x y ys)

theorem sortDesc_perm (l : List (JVal × ℚ)) : (sortDesc l).Perm l := by
  induction l with
  | nil => exact List.Perm.refl _
  | cons x xs ih =>
      rw [sortDesc]
      exact (insDesc_perm x (sortDesc xs)).trans (ih.cons x)

theorem insDesc_pairwise (x : JVal × ℚ) (l : List (JVal × ℚ))
    (h : l.Pairwise (fun a b => b.2 ≤ a.2)) :
    (insDesc x l).Pairwise (fun a b => b.2 ≤ a.2) := by
  induction l with
  | nil => simp [insDesc]
  | cons y ys ih =>
      rw [List.pairwise_cons] at h
      rw [insDesc]
      split
      · rename_i hyx
        rw [List.pairwise_cons]
        refine ⟨?_, List.pairwise_cons.mpr h⟩
        intro z hz
        rcases List.mem_cons.mp hz with rfl | hz2
        · exact hyx
        · exact le_trans (h.1 z hz2) hyx
      · rename_i hyx
        rw [List.pairwise_cons]
        refine ⟨?_, ih h.2⟩
        intro z hz
        have hz2 := (insDesc_perm x ys).mem_iff.mp hz
        rcases List.mem_cons.mp hz2 with rfl | hz3
        · exact le_of_lt (lt_of_not_le hyx)
        · exact h.1 z hz3

theorem sortDesc_pairwise (l : List (JVal × ℚ)) :
    (sortDesc l).Pairwise (fun a b => b.2 ≤ a.2) := by
  induction l with
  | nil => simp [sortDesc]
  | cons x xs ih => exact insDesc_pairwise x (sortDesc xs) ih

theorem pyMaxRun_mem (l : List (JVal × ℚ)) :
    ∀ b : JVal × ℚ, pyMaxRun b l ∈ b :: l := by
  induction l with
  | nil => intro b; simp [pyMaxRun]
  | cons x xs ih =>
      intro b
      rw [pyMaxRun]
      have h := ih (if b.2 < x.2 then x else b)
      rcases List.mem_cons.mp h with h2 | h2
      · rw [h2]
        split
        · exact List.mem_cons_of_mem _ (List.mem_cons_self _ _)
        · exact List.mem_cons_self _ _
      · exact List.mem_cons_of_mem _ (List.mem_cons_of_mem _ h2)

theorem pyMaxRun_ub (l : List (JVal × ℚ)) :
    ∀ (b : JVal × ℚ) (y : JVal × ℚ), y ∈ b :: l → y.2 ≤ (pyMaxRun b l).2 := by
  induction l with
  | nil =>
      intro b y hy
      rcases List.mem_cons.mp hy with rfl | hy2
      · exact le_refl _
      · simp at hy2
  | cons x xs ih =>
      intro b y hy
      rw [pyMaxRun]
      have hb : b.2 ≤ (if b.2 < x.2 then x else b).2 := by
        split
        · rename_i hlt; exact le_of_lt hlt
        · exact le_refl _
      have hx : x.2 ≤ (if b.2 < x.2 then x else b).2 := by
        split
        · exact le_refl _
        · rename_i hlt; exact le_of_not_lt hlt
      have hhead := ih (if b.2 < x.2 then x else b)
      rcases List.mem_cons.mp hy with rfl | hy2
      · exact le_trans hb (hhead _ (List.mem_cons_self _ _))
      · rcases List.mem_cons.mp hy2 with rfl | hy3
        · exact le_trans hx (hhead _ (List.mem_cons_self _ _))
        · exact hhead y (List.mem_cons_of_mem _ hy3)

theorem pyMaxRun_shift (l : List (JVal × ℚ)) :
    ∀ b x : JVal × ℚ, pyMaxRun b (x :: l) =
      if (pyMaxRun x l).2 ≤ b.2 then b else pyMaxRun x l := by
  induction l with
  | nil =>
      intro b x
      rw [pyMaxRun, pyMaxRun]
      rcases lt_or_le b.2 x.2 with h | h
      · rw [if_pos h, if_neg (not_le_of_lt h)]
        rfl
      · rw [if_neg (not_lt_of_le h), if_pos h]
        rfl
  | cons y ys ih =>
      intro b x
      rw [show pyMaxRun b (x :: y :: ys) =
            pyMaxRun (if b.2 < x.2 then x else b) (y :: ys) from rfl]
      rw [ih (if b.2 < x.2 then x else b) y, ih x y]
      rcases lt_or_le b.2 x.2 with hbx | hbx
      · rw [if_pos hbx]
        rcases le_or_lt (pyMaxRun y ys).2 x.2 with hmx | hmx
        · rw [if_pos hmx, if_neg (not_le_of_lt hbx)]
        · rw [if_neg (not_le_of_lt hmx),
              if_neg (not_le_of_lt (lt_trans hbx hmx))]
      · rw [if_neg (not_lt_of_le hbx)]
        rcases le_or_lt (pyMaxRun y ys).2 x.2 with hmx | hmx
        · rw [if_pos hmx, if_pos (le_trans hmx hbx), if_pos hbx]
        · rw [if_neg (not_le_of_lt hmx)]

theorem sortDesc_head (l : List (JVal × ℚ)) :
    ∀ x : JVal × ℚ, (sortDesc (x :: l)).head? = some (pyMaxRun x l) := by
  induction l with
  | nil => intro x; rfl
  | cons y ys ih =>
      intro x
      rw [show sortDesc (x :: y :: ys) = insDesc x (sortDesc (y :: ys)) from rfl]
      have hy := ih y
      rcases hsd : sortDesc (y :: ys) with _ | ⟨m, rest⟩
      · rw [hsd] at hy; simp at hy
      · rw [hsd] at hy
        simp only [List.head?] at hy
        have hm : m = pyMaxRun y ys := by injection hy
        rw [insDesc, pyMaxRun_shift ys x y, ← hm]
        split
        · rfl
        · rfl

theorem pyMaxRun_stable (l : List (JVal × ℚ)) :
    ∀ b : JVal × ℚ, ∃ pre post, b :: l = pre ++ pyMaxRun b l :: post ∧
      ∀ y ∈ pre, y.2 < (pyMaxRun b l).2 := by
  induction l with
  | nil =>
      intro b
      exact ⟨[], [], rfl, by simp⟩
  | cons x xs ih =>
      intro b
      rw [pyMaxRun]
      rcases lt_or_le b.2 x.2 with hbx | hbx
      · obtain ⟨pre, post, heq, hlt⟩ := ih (if b.2 < x.2 then x else b)
        rw [if_pos hbx] at heq hlt ⊢
        refine ⟨b :: pre, post, by rw [List.cons_append, ← heq], ?_⟩
        intro y hy
        rcases List.mem_cons.mp hy with rfl | hy2
        · exact lt_of_lt_of_le hbx
            (pyMaxRun_ub xs x x (List.mem_cons_self _ _))
        · exact hlt y hy2
      · obtain ⟨pre, post, heq, hlt⟩ := ih (if b.2 < x.2 then x else b)
        rw [if_neg (not_lt_of_le hbx)] at heq hlt ⊢
        rcases pre with _ | ⟨p, ps⟩
        · simp only [List.nil_append] at heq
          have hb : b = pyMaxRun b xs := by injection heq
          refine ⟨[], x :: xs, ?_, by simp⟩
          rw [List.nil_append, ← hb]
        · have hp : p = b := by injection heq with h1 _; exact h1.symm
          have hxs : xs = ps ++ pyMaxRun b xs :: post := by injection heq
          refine ⟨b :: x :: ps, post, ?_, ?_⟩
          · rw [List.cons_append, List.cons_append, ← hxs]
          · intro y hy
            have hbm : b.2 < (pyMaxRun b xs).2 := by
              have := hlt p (List.mem_cons_self _ _)
              rwa [hp] at this
            rcases List.mem_cons.mp hy with rfl | hy2
            · exact hbm
            · rcases List.mem_cons.mp hy2 with rfl | hy3
              · exact lt_of_le_of_lt hbx hbm
              · exact hlt y (List.mem_cons_of_mem _ hy3)

/-- On a sequence of label/score records, `keyed` succeeds and pairs every
entry with its score. -/
theorem keyed_eq_map (l : List JVal)
    (h : ∀ v ∈ l, isLabelScoreRecord v = true) :
    keyed l = .ok (keyedOf l) := by
  induction l with
  | nil => rfl
  | cons x xs ih =>
      have hx := h x (List.mem_cons_self _ _)
      obtain ⟨q, hq⟩ : ∃ q, scoreKey x = .ok q := by
        unfold isLabelScoreRecord at hx
        rcases hsk : scoreKey x with u | q
        · rw [hsk] at hx
          simp at hx
        · exact ⟨q, rfl⟩
      have hscoreOf : scoreOf x = q := by
        unfold scoreOf
        rw [hq]
      have ih2 := ih (fun v hv => h v (List.mem_cons_of_mem _ hv))
      simp only [keyed, hq, ih2, keyedOf, List.map_cons, hscoreOf]

/-- Conversely, if `keyed` succeeds then every entry is a label/score
record. -/
theorem keyed_ok_records (l : List JVal) :
    ∀ ks, keyed l = .ok ks → ∀ v ∈ l, isLabelScoreRecord v = true := by
  induction l with
  | nil => intro ks _ v hv; simp at hv
  | cons x xs ih =>
      intro ks hk v hv
      rcases hsk : scoreKey x with u | q
      · rw [keyed, hsk] at hk
        simp at hk
      · rcases hxs : keyed xs with u2 | ks2
        · rw [keyed, hsk, hxs] at hk
          simp at hk
        · rcases List.mem_cons.mp hv with rfl | hv2
          · unfold isLabelScoreRecord
            rw [hsk]
          · exact ih ks2 hxs v hv2

/-- A record entry is a JSON object. -/
theorem record_is_obj (v : JVal) (h : isLabelScoreRecord v = true) :
    ∃ kvs, v = .obj kvs := by
  unfold isLabelScoreRecord at h
  rcases v with _ | b | q | s | xs | kvs <;> simp [scoreKey] at h
  exact ⟨_, rfl⟩

/-- The success tail of `hfNormalize` once the keys have been computed. -/
theorem hfNormalize_ok (kvs : List (String × JVal)) (xs : List JVal)
    (k0 : JVal × ℚ) (ks : List (JVal × ℚ))
    (hkeyed : keyed (.obj kvs :: xs) = .ok (k0 :: ks)) :
    hfNormalize (.arr (.obj kvs :: xs)) =
      (.obj [("predicted_class", ((pyMaxRun k0 ks).1.get? "label").getD .null),
             ("confidence", .num (pyMaxRun k0 ks).2),
             ("topK", .arr (((sortDesc (k0 :: ks)).take 5).map Prod.fst))], 200) := by
  simp only [hfNormalize, hkeyed]

/-- The main `/predict` handler on a validated upload whose client call
returned status 200: it normalises the payload. -/
theorem main_predict_200 (pilOk : List ℕ → Bool) (env : ℕ → HFResp)
    (bytes : List ℕ) (p : JVal) (tr : List Ev) (hpil : pilOk bytes = true)
    (hcall : call_hf_inference env 3 = (.ok (p, 200), tr)) :
    main_predict pilOk env (.file bytes) = (.ok (hfNormalize p), tr) := by
  simp [main_predict, hpil, hcall]

/-- The service `/predict` handler on a validated upload whose client call
returned status 200: it normalises the payload. -/
theorem service_predict_200 (pilOk : List ℕ → Bool) (env : ℕ → HFResp)
    (bytes : List ℕ) (p : JVal) (tr : List Ev) (hpil : pilOk bytes = true)
    (hcall : call_hf_inference env 3 = (.ok (p, 200), tr)) :
    service_predict pilOk env (.file bytes) = (.ok (hfNormalize p), tr) := by
  have hcall2 : call_hf env 3 = (.ok (p, 200), tr) := hcall
  simp [service_predict, hpil, hcall2]

/-- Claim C5: on a successful status-200 payload that is a non-empty list
of label/score records, both `/predict` handlers return 200 with
`predicted_class`/`confidence` taken from the stable maximum-score entry
(score coerced to float, missing score read as 0.0) and `topK` the same
sequence stably sorted descending by score and truncated to at most 5; the
maximum entry is the head of the sorted sequence, so `predicted_class` and
`confidence` equal the maximum-score entry of `topK`, ties broken by
encounter order. -/
theorem claim_C5_normalization (pilOk : List ℕ → Bool) (env : ℕ → HFResp)
    (bytes : List ℕ) (x : JVal) (xs : List JVal) (tr : List Ev)
    (hpil : pilOk bytes = true)
    (hcall : call_hf_inference env 3 = (.ok (.arr (x :: xs), 200), tr))
    (hrec : isRecordSeq (.arr (x :: xs)) = true) :
    ∃ best ∈ keyedOf (x :: xs),
      main_predict pilOk env (.file bytes) =
        (.ok (.obj [("predicted_class", (best.1.get? "label").getD .null),
                    ("confidence", .num best.2),
                    ("topK", .arr (((sortDesc (keyedOf (x :: xs))).take 5).map
                      Prod.fst))], 200), tr) ∧
      service_predict pilOk env (.file bytes) =
        main_predict pilOk env (.file bytes) ∧
      (∀ y ∈ keyedOf (x :: xs), y.2 ≤ best.2) ∧
      (∃ pre post, keyedOf (x :: xs) = pre ++ best :: post ∧
        ∀ y ∈ pre, y.2 < best.2) ∧
      (sortDesc (keyedOf (x :: xs))).Perm (keyedOf (x :: xs)) ∧
      (sortDesc (keyedOf (x :: xs))).Pairwise (fun a b => b.2 ≤ a.2) ∧
      (((sortDesc (keyedOf (x :: xs))).take 5).map Prod.fst).length ≤ 5 ∧
      (sortDesc (keyedOf (x :: xs))).head? = some best := by
  have hall : ∀ v ∈ x :: xs, isLabelScoreRecord v = true := by
    simp only [isRecordSeq, List.isEmpty_cons, Bool.not_false, Bool.true_and,
      List.all_eq_true] at hrec
    exact hrec
  obtain ⟨kvs, rfl⟩ := record_is_obj x (hall x (List.mem_cons_self _ _))
  have hK : keyedOf (JVal.obj kvs :: xs) =
      (JVal.obj kvs, scoreOf (.obj kvs)) :: keyedOf xs := rfl
  have hkeyed := keyed_eq_map (JVal.obj kvs :: xs) hall
  rw [hK] at hkeyed
  have hnorm := hfNormalize_ok kvs xs _ _ hkeyed
  have hmain := main_predict_200 pilOk env bytes _ tr hpil hcall
  refine ⟨pyMaxRun (JVal.obj kvs, scoreOf (.obj kvs)) (keyedOf xs),
    ?_, ?_, ?_, ?_, ?_, ?_, ?_, ?_, ?_⟩
  · rw [hK]
    exact pyMaxRun_mem (keyedOf xs) _
  · rw [hmain, hnorm, hK]
  · rw [service_predict_200 pilOk env bytes _ tr hpil hcall, hmain]
  · rw [hK]
    exact fun y hy => pyMaxRun_ub (keyedOf xs) _ y hy
  · rw [hK]
    exact pyMaxRun_stable (keyedOf xs) _
  · exact sortDesc_perm _
  · exact sortDesc_pairwise _
  · rw [List.length_map]
    exact List.length_take_le _ _
  · rw [hK]
    exact sortDesc_head (keyedOf xs) _

/-- First record of the claim C5 witness payload (the spec's round-trip
example). -/
def c5x : JVal := .obj [("label", .str "Cardinal"), ("score", .num (7 / 10))]

/-- Second record of the claim C5 witness payload. -/
def c5y : JVal := .obj [("label", .str "Robin"), ("score", .num (9 / 10))]

/-- Witness environment for claim C5: 200 with the two-record payload. -/
def c5env : ℕ → HFResp := fun _ => .http 200 (some (.arr [c5x, c5y])) "ok"

/-- Witness for claim C5 at the spec's round-trip example payload. -/
theorem claim_C5_normalization_witness :
    ((fun (_ : List ℕ) => true) [] = true) ∧
    call_hf_inference c5env 3 = (.ok (.arr (c5x :: [c5y]), 200), [Ev.hfCall]) ∧
    isRecordSeq (.arr (c5x :: [c5y])) = true ∧
    ∃ best ∈ keyedOf (c5x :: [c5y]),
      main_predict (fun _ => true) c5env (.file []) =
        (.ok (.obj [("predicted_class", (best.1.get? "label").getD .null),
                    ("confidence", .num best.2),
                    ("topK", .arr (((sortDesc (keyedOf (c5x :: [c5y]))).take 5).map
                      Prod.fst))], 200), [Ev.hfCall]) ∧
      service_predict (fun _ => true) c5env (.file []) =
        main_predict (fun _ => true) c5env (.file []) ∧
      (∀ y ∈ keyedOf (c5x :: [c5y]), y.2 ≤ best.2) ∧
      (∃ pre post, keyedOf (c5x :: [c5y]) = pre ++ best :: post ∧
        ∀ y ∈ pre, y.2 < best.2) ∧
      (sortDesc (keyedOf (c5x :: [c5y]))).Perm (keyedOf (c5x :: [c5y])) ∧
      (sortDesc (keyedOf (c5x :: [c5y]))).Pairwise (fun a b => b.2 ≤ a.2) ∧
      (((sortDesc (keyedOf (c5x :: [c5y]))).take 5).map Prod.fst).length ≤ 5 ∧
      (sortDesc (keyedOf (c5x :: [c5y]))).head? = some best := by
  refine ⟨rfl, rfl, rfl, ?_⟩
  exact claim_C5_normalization (fun _ => true) c5env [] c5x [c5y] [Ev.hfCall]
    rfl rfl rfl

/-- Environment refuting claim C6 as stated: the backend answers 201 (a
2xx status other than 200) with the body `5`, which is not a sequence of
records. -/
def c6env : ℕ → HFResp := fun _ => .http 201 (some (.num 5)) "5"

/-- Claim C6 counterexample: for a 2xx (201) response with a non-record
payload the main `/predict` handler does not answer 502 — its `code != 200`
gate passes the raw payload through with status 201. -/
theorem claim_C6_counterexample :
    isRecordSeq (.num 5) = false ∧ (200 ≤ 201 ∧ 201 < 300) ∧
    main_predict (fun _ => true) c6env (.file []) =
      (.ok (.num 5, 201), [Ev.hfCall]) ∧
    ¬ (201 = 502) :=
  ⟨rfl, by omega, rfl, by omega⟩

/-- Claim C6 amended: on a backend payload delivered with status exactly
200 that is not a non-empty sequence of label/score records, both
`/predict` handlers return 502 with a JSON body carrying an `error` message
(`Unexpected HF response` for a shape failure, `Could not interpret HF
scores` for an uninterpretable score) and the raw payload, and never a
prediction.  (Other 2xx statuses are passed through verbatim by src/main.py,
see the counterexample.) -/
theorem claim_C6_amended (pilOk : List ℕ → Bool) (env : ℕ → HFResp)
    (bytes : List ℕ) (p : JVal) (tr : List Ev)
    (hpil : pilOk bytes = true)
    (hcall : call_hf_inference env 3 = (.ok (p, 200), tr))
    (hbad : isRecordSeq p = false) :
    ∃ msg, (msg = "Unexpected HF response" ∨
            msg = "Could not interpret HF scores") ∧
      main_predict pilOk env (.file bytes) =
        (.ok (.obj [("error", .str msg), ("raw", p)], 502), tr) ∧
      service_predict pilOk env (.file bytes) =
        (.ok (.obj [("error", .str msg), ("raw", p)], 502), tr) := by
  have hnorm : ∃ msg, (msg = "Unexpected HF response" ∨
      msg = "Could not interpret HF scores") ∧
      hfNormalize p = (.obj [("error", .str msg), ("raw", p)], 502) := by
    rcases p with _ | b | q | s | xs | kvs
    · exact ⟨_, Or.inl rfl, rfl⟩
    · exact ⟨_, Or.inl rfl, rfl⟩
    · exact ⟨_, Or.inl rfl, rfl⟩
    · exact ⟨_, Or.inl rfl, rfl⟩
    · rcases xs with _ | ⟨x, rest⟩
      · exact ⟨_, Or.inl rfl, rfl⟩
      · rcases x with _ | b2 | q2 | s2 | xs2 | kvs2
        · exact ⟨_, Or.inl rfl, rfl⟩
        · exact ⟨_, Or.inl rfl, rfl⟩
        · exact ⟨_, Or.inl rfl, rfl⟩
        · exact ⟨_, Or.inl rfl, rfl⟩
        · exact ⟨_, Or.inl rfl, rfl⟩
        · rcases hk : keyed (.obj kvs2 :: rest) with u | ks
          · refine ⟨_, Or.inr rfl, ?_⟩
            simp only [hfNormalize, hk]
          · exfalso
            have hall := keyed_ok_records (.obj kvs2 :: rest) ks hk
            have htrue : isRecordSeq (.arr (.obj kvs2 :: rest)) = true := by
              simp only [isRecordSeq, List.isEmpty_cons, Bool.not_false,
                Bool.true_and, List.all_eq_true]
              exact hall
            rw [htrue] at hbad
            exact Bool.noConfusion hbad
    · exact ⟨_, Or.inl rfl, rfl⟩
  obtain ⟨msg, hmsg, hn⟩ := hnorm
  refine ⟨msg, hmsg, ?_, ?_⟩
  · rw [main_predict_200 pilOk env bytes p tr hpil hcall, hn]
  · rw [service_predict_200 pilOk env bytes p tr hpil hcall, hn]

/-- Witness environment for the amended claim C6: status 200 with the
non-record payload `5`. -/
def c6wenv : ℕ → HFResp := fun _ => .http 200 (some (.num 5)) "5"

/-- Witness for the amended claim C6. -/
theorem claim_C6_amended_witness :
    ((fun (_ : List ℕ) => true) [] = true) ∧
    call_hf_inference c6wenv 3 = (.ok (.num 5, 200), [Ev.hfCall]) ∧
    isRecordSeq (.num 5) = false ∧
    ∃ msg, (msg = "Unexpected HF response" ∨
            msg = "Could not interpret HF scores") ∧
      main_predict (fun _ => true) c6wenv (.file []) =
        (.ok (.obj [("error", .str msg), ("raw", .num 5)], 502), [Ev.hfCall]) ∧
      service_predict (fun _ => true) c6wenv (.file []) =
        (.ok (.obj [("error", .str msg), ("raw", .num 5)], 502), [Ev.hfCall]) := by
  refine ⟨rfl, rfl, rfl, ?_⟩
  exact claim_C6_amended (fun _ => true) c6wenv [] (.num 5) [Ev.hfCall]
    rfl rfl rfl

/-- HTTP status of a handler outcome (0 for a raised exception), used to
separate observably different responses. -/
def statusOf (r : Except PyExc (JVal × ℕ) × List Ev) : ℕ :=
  match r.1 with
  | .ok pc => pc.2
  | .error _ => 0

/-- The single-record payload of the claim C10 counterexample. -/
def c10arr : JVal := .arr [.obj [("label", .str "Robin"), ("score", .num (9 / 10))]]

/-- Environment refuting claim C10: the backend answers 201 with a
well-formed one-record payload. -/
def c10env : ℕ → HFResp := fun _ => .http 201 (some c10arr) ""

/-- Claim C10 counterexample: on a 201 response the main handler passes the
raw payload through with status 201 (its gate is `code != 200`) while the
service handler normalises it and answers 200 (its gate is `code >= 400`),
so the two `/predict` handlers are not observationally equivalent. -/
theorem claim_C10_counterexample :
    main_predict (fun _ => true) c10env (.file []) =
      (.ok (c10arr, 201), [Ev.hfCall]) ∧
    service_predict (fun _ => true) c10env (.file []) =
      (.ok (.obj [("predicted_class", .str "Robin"), ("confidence", .num (9 / 10)),
                  ("topK", .arr [.obj [("label", .str "Robin"),
                                       ("score", .num (9 / 10))]])],
            200), [Ev.hfCall]) ∧
    main_predict (fun _ => true) c10env (.file []) ≠
      service_predict (fun _ => true) c10env (.file []) := by
  refine ⟨rfl, rfl, ?_⟩
  intro h
  have h1 : statusOf (main_predict (fun _ => true) c10env (.file [])) = 201 := rfl
  have h2 : statusOf (service_predict (fun _ => true) c10env (.file [])) = 200 := rfl
  rw [h, h2] at h1
  exact absurd h1 (by omega)

/-- Claim C10 amended: the two `/predict` handlers agree on every upload
and backend-response sequence for which the client's returned status is
either 200 or at least 400 — that is, everywhere except when the final
status lies in 201-399 (or below 200), where the `code != 200` and
`code >= 400` gates differ. -/
theorem claim_C10_amended (pilOk : List ℕ → Bool) (env : ℕ → HFResp)
    (u : Upload)
    (hcode : ∀ p c tr, call_hf_inference env 3 = (.ok (p, c), tr) →
      c = 200 ∨ 400 ≤ c) :
    main_predict pilOk env u = service_predict pilOk env u := by
  have hcc : call_hf env 3 = call_hf_inference env 3 := rfl
  rcases u with _ | bytes
  · rfl
  · rcases hpil : pilOk bytes with _ | _
    · simp [main_predict, service_predict, hpil]
    · rcases hc : call_hf_inference env 3 with ⟨res, tr⟩
      rcases res with e | pc
      · simp [main_predict, service_predict, hpil, hcc, hc]
      · rcases pc with ⟨p, c⟩
        rcases hcode p c tr hc with rfl | h400
        · simp [main_predict, service_predict, hpil, hcc, hc]
        · have hne : ¬ (c = 200) := by omega
          simp [main_predict, service_predict, hpil, hcc, hc, hne, h400]

/-- Witness environment for the amended claim C10: a plain 200 response. -/
def c10wenv : ℕ → HFResp := fun _ => .http 200 (some c10arr) "ok"

/-- Witness for the amended claim C10 at a backend that answers 200. -/
theorem claim_C10_amended_witness :
    (∀ p c tr, call_hf_inference c10wenv 3 = (.ok (p, c), tr) →
      c = 200 ∨ 400 ≤ c) ∧
    main_predict (fun _ => true) c10wenv (.file []) =
      service_predict (fun _ => true) c10wenv (.file []) := by
  have hdis : ∀ p c tr, call_hf_inference c10wenv 3 = (.ok (p, c), tr) →
      c = 200 ∨ 400 ≤ c := by
    intro p c tr h
    have h0 : call_hf_inference c10wenv 3 = (.ok (c10arr, 200), [Ev.hfCall]) := rfl
    rw [h0] at h
    have h1 : (Except.ok (c10arr, 200) : Except PyExc (JVal × ℕ)) = .ok (p, c) :=
      congrArg Prod.fst h
    injection h1 with h2
    exact Or.inl (congrArg Prod.snd h2).symm
  exact ⟨hdis, claim_C10_amended (fun _ => true) c10wenv (.file []) hdis⟩
